import Mathlib

/-!
Verification of the service-worker caching layer of the career-guide
repository (src/sw.js and the unnamed service-worker variant).

The service worker is a policy engine over named cache partitions.  We embed
it shallowly: a partition is an insertion-ordered list of (request key,
stored response) pairs; the cache storage is an ordered list of named
partitions; network behaviour is passed in explicitly (a fetch either
rejects or resolves with a response); the event handlers become pure state
transformers.  Every definition is translated directly from the JavaScript
source.
-/

namespace SW

/-- A request identity: the URL of a GET request (src/sw.js uses the
request object; only method and URL matter for cache keys). -/
abbrev Key := String

/-- A stored/returned response: status, headers, body — the immutable
snapshot the Cache API stores. -/
structure Response where
  status : Nat
  headers : List (String × String)
  body : String
deriving DecidableEq, Repr

/-- One cache partition: insertion-ordered entries, oldest first.
`cache.keys()` enumerates in this order. -/
abbrev Partition := List (Key × Response)

/-- The whole cache storage: named partitions in creation order
(`caches.keys()` / `caches.match` iterate in this order). -/
abbrev CacheStorage := List (String × Partition)

/-- JavaScript `String.prototype.includes`: substring containment.
Used by the source both for `url.hostname.includes(domain)` and
`request.url.includes('/api/')`. -/
def strIncludes (s sub : String) : Bool :=
  (List.range (s.length + 1)).any
    (fun i => List.take sub.length (List.drop i s.toList) == sub.toList)

/-- `cache.match(request)`: the stored response for this key, if any. -/
def cacheMatch (p : Partition) (k : Key) : Option Response :=
  (p.find? (fun e => e.1 == k)).map (fun e => e.2)

/-- `cache.put(request, response)`: last write wins — any previous entry
for the key is replaced and the fresh entry sits at the newest position. -/
def cachePut (p : Partition) (k : Key) (r : Response) : Partition :=
  p.filter (fun e => e.1 != k) ++ [(k, r)]

/-- `cache.delete(request)`: remove the entry for this key. -/
def cacheDelete (p : Partition) (k : Key) : Partition :=
  p.filter (fun e => e.1 != k)

/-- `cache.keys()`: the keys in insertion order. -/
def cacheKeys (p : Partition) : List Key :=
  p.map (fun e => e.1)

/-- src/sw.js lines 231-238, `limitCacheSize`: while the entry count
exceeds `maxItems`, delete the entry for `keys[0]` (the oldest-inserted
key) and recurse. -/
def limitCacheSize : Partition → Nat → Partition
  | [], _ => []
  | e :: rest, maxItems =>
    if maxItems < (e :: rest).length then
      limitCacheSize (cacheDelete (e :: rest) e.1) maxItems
    else
      e :: rest
termination_by p _ => p.length
decreasing_by
  simp only [cacheDelete, List.filter_cons, bne_self_eq_false, List.length_cons]
  exact Nat.lt_succ_of_le (List.length_filter_le _ _)

/-- `caches.match(request)`: search every partition in order. -/
def cachesMatch (s : CacheStorage) (k : Key) : Option Response :=
  s.findSome? (fun np => cacheMatch np.2 k)

/-- The partition currently stored under a name (`caches.open` yields the
existing partition, or a fresh empty one). -/
def storageGet (s : CacheStorage) (name : String) : Partition :=
  ((s.find? (fun np => np.1 == name)).map (fun np => np.2)).getD []

/-- Replace the partition stored under a name (creating it if absent, as
`caches.open` does on first write). -/
def storageSet (s : CacheStorage) (name : String) (p : Partition) : CacheStorage :=
  if s.any (fun np => np.1 == name) then
    s.map (fun np => if np.1 == name then (name, p) else np)
  else
    s ++ [(name, p)]

/-- `caches.open(name)` then `cache.put(request, response)`. -/
def storagePut (s : CacheStorage) (name : String) (k : Key) (r : Response) : CacheStorage :=
  storageSet s name (cachePut (storageGet s name) k r)

/-- `limitCacheSize(name, maxItems)` acting on the whole storage. -/
def storageLimit (s : CacheStorage) (name : String) (maxItems : Nat) : CacheStorage :=
  storageSet s name (limitCacheSize (storageGet s name) maxItems)

/-! ### Constants from src/sw.js lines 1-55 -/

def CACHE_NAME : String := "EduPath-pwa-v1"
def DYNAMIC_CACHE : String := "EduPath-dynamic-v1"
def IMAGE_CACHE : String := "EduPath-images-v1"
def CDN_CACHE : String := "EduPath-cdn-v1"
def MAX_DYNAMIC_ITEMS : Nat := 50
def MAX_IMAGE_ITEMS : Nat := 100

/-- src/sw.js lines 32-41: the static-shell manifest.  The source list has
a slipped comma between the careers page and the manifest entry; the eight
intended entries are embedded. -/
def urlsToCache : List String :=
  ["/", "/index.html", "/pages/roadmaps_page.html", "/pages/explore_colleges.html",
   "/pages/careers_page.html", "/manifest.json", "/icons/favicon.png", "/offline.html"]

/-- src/sw.js lines 44-55: the third-party (CDN) manifest. -/
def cdnUrlsToCache : List String :=
  ["https://cdn.jsdelivr.net/npm/@tailwindcss/browser@4",
   "https://fonts.googleapis.com/css2?family=Inter:wght@300;400;500;600;700;800&family=Poppins:wght@300;400;500;600;700&display=swap",
   "https://fonts.googleapis.com/css2?family=Syne:wght@400;500;600;700;800&display=swap",
   "https://fonts.googleapis.com/css2?family=Space+Grotesk:wght@300;400;500;600;700&display=swap"]

/-! ### Network model

A fetch either rejects (network failure) or resolves with a response of
some status; which one happens is an input to each handler. -/

/-- Outcome of a single `fetch(request)`. -/
abbrev FetchResult := Except Unit Response

/-! ### Strategy handlers (src/sw.js lines 142-228) -/

/-- src/sw.js lines 185-196, `handlePageRequest` (network-first): on fetch
success, write-through to the dynamic partition, enforce the bound, return
the live response; on failure return the cached copy for this identity,
or else whatever `caches.match` gives for the offline page.  The returned
value is an `Option` because the fallback lookup itself can miss. -/
def handlePageRequest (s : CacheStorage) (req : Key) (net : FetchResult) :
    Option Response × CacheStorage :=
  match net with
  | .ok networkResponse =>
      let s1 := storagePut s DYNAMIC_CACHE req networkResponse
      let s2 := storageLimit s1 DYNAMIC_CACHE MAX_DYNAMIC_ITEMS
      (some networkResponse, s2)
  | .error _ =>
      match cachesMatch s req with
      | some cachedResponse => (some cachedResponse, s)
      | none => (cachesMatch s "/offline.html", s)

/-- The synthetic response of the image fallback,
`new Response('Image not available', status 404)`. -/
def imageUnavailable : Response :=
  { status := 404, headers := [], body := "Image not available" }

/-- src/sw.js lines 199-212, `handleImageRequest` (cache-first): on a hit
return the cached entry without touching the network; on a miss fetch,
write-through to the image partition, enforce the bound; on fetch failure
return the synthetic 404.  The final `Bool` records whether a network
fetch was performed. -/
def handleImageRequest (s : CacheStorage) (req : Key) (net : FetchResult) :
    Response × CacheStorage × Bool :=
  match cachesMatch s req with
  | some cachedResponse => (cachedResponse, s, false)
  | none =>
      match net with
      | .ok networkResponse =>
          let s1 := storagePut s IMAGE_CACHE req networkResponse
          let s2 := storageLimit s1 IMAGE_CACHE MAX_IMAGE_ITEMS
          (networkResponse, s2, true)
      | .error _ => (imageUnavailable, s, true)

/-- src/sw.js line 217: the 5000 ms timeout raced against the API fetch. -/
def TIMEOUT_MS : Nat := 5000

/-- The synthetic offline payload of the API strategy:
status 503, JSON content type, `JSON.stringify` of the error object. -/
def offlineJsonResponse : Response :=
  { status := 503,
    headers := [("Content-Type", "application/json")],
    body := "\x7b\"error\":\"Network error\",\"offline\":true\x7d" }

/-- Behaviour of the API fetch as seen by `Promise.race`: either the fetch
settles at time `t` (milliseconds) with a `FetchResult`, or it never
settles.  `none` and any settlement at or after `TIMEOUT_MS` let the
timer win the race. -/
abbrev TimedFetch := Option (Nat × FetchResult)

/-- `Promise.race([fetch(request), timeoutPromise])`: the fetch result if
the fetch settles strictly before the 5000 ms timer, otherwise the
timer's rejection; a fetch rejection is an error either way. -/
def raceWithTimeout (tf : TimedFetch) : FetchResult :=
  match tf with
  | some (t, res) => if t < TIMEOUT_MS then res else .error ()
  | none => .error ()

/-- src/sw.js lines 215-228, `handleApiRequest` (network-only with
timeout): return the raced fetch result, or on any failure the synthetic
503 JSON response.  The storage is passed through to show no partition is
ever written. -/
def handleApiRequest (s : CacheStorage) (tf : TimedFetch) :
    Response × CacheStorage :=
  match raceWithTimeout tf with
  | .ok r => (r, s)
  | .error _ => (offlineJsonResponse, s)

/-! ### Resource classifier and router (src/sw.js lines 99-140) -/

/-- src/sw.js lines 129-140, `isCDNResource`: substring match of the URL
hostname against the six configured CDN domains
(`url.hostname.includes(domain)`). -/
def cdnDomains : List String :=
  ["cdn.tailwindcss.com", "fonts.googleapis.com", "fonts.gstatic.com",
   "cdnjs.cloudflare.com", "unpkg.com", "cdn.jsdelivr.net"]

def isCDNResource (hostname : String) : Bool :=
  cdnDomains.any (fun domain => strIncludes hostname domain)

/-- The metadata of an incoming request that the fetch listener inspects. -/
structure Request where
  method : String
  url : String
  hostname : String
  origin : String
  destination : String
deriving DecidableEq, Repr

/-- The handling class the fetch listener assigns to a request. -/
inductive ResourceClass
  | ineligible      -- non-GET: listener returns without respondWith
  | thirdParty      -- isCDNResource: handleCDNRequest
  | crossOriginPass -- other cross-origin: respondWith(fetch(request))
  | image           -- destination image: handleImageRequest
  | apiCall         -- URL contains /api/: handleApiRequest
  | page            -- everything else: handlePageRequest
deriving DecidableEq, Repr

/-- src/sw.js lines 99-126, the fetch listener's dispatch order: non-GET
bypass; CDN substring check; cross-origin pass-through; image; API;
page. -/
def classify (selfOrigin : String) (req : Request) : ResourceClass :=
  if req.method != "GET" then .ineligible
  else if isCDNResource req.hostname then .thirdParty
  else if req.origin != selfOrigin then .crossOriginPass
  else if req.destination == "image" then .image
  else if strIncludes req.url "/api/" then .apiCall
  else .page

/-! ### Lifecycle (src/sw.js lines 58-96 and 285-300) -/

/-- `cache.addAll(urls)`: fetch every URL of the manifest and store each
response; any fetch failure fails the whole operation. -/
def cacheAddAll (p : Partition) (urls : List String)
    (net : String → FetchResult) : Except Unit Partition :=
  urls.foldlM
    (fun acc u =>
      match net u with
      | .ok r => Except.ok (cachePut acc u r)
      | .error _ => Except.error ())
    p

/-- src/sw.js lines 58-77, the install listener:
`Promise.all` of (a) `addAll` of the static manifest into the static
shell — its failure rejects the whole install — and (b) `addAll` of the
CDN manifest into the CDN partition with a `.catch` that swallows any
failure. -/
def installSW (s : CacheStorage) (net : String → FetchResult) :
    Except Unit CacheStorage :=
  match cacheAddAll (storageGet s CACHE_NAME) urlsToCache net with
  | .error _ => .error ()
  | .ok staticPart =>
      let s1 := storageSet s CACHE_NAME staticPart
      match cacheAddAll (storageGet s1 CDN_CACHE) cdnUrlsToCache net with
      | .error _ => .ok s1
      | .ok cdnPart => .ok (storageSet s1 CDN_CACHE cdnPart)

/-- src/sw.js line 82: the partition whitelist of the activate listener. -/
def cacheWhitelist : List String :=
  [CACHE_NAME, DYNAMIC_CACHE, IMAGE_CACHE, CDN_CACHE]

/-- `caches.delete(name)`: drop the partition with this name. -/
def deleteCacheByName (s : CacheStorage) (name : String) : CacheStorage :=
  s.filter (fun np => np.1 != name)

/-- Perform a batch of `caches.delete` calls in the given order. -/
def runDeletions (s : CacheStorage) (names : List String) : CacheStorage :=
  names.foldl deleteCacheByName s

/-- src/sw.js lines 80-96, the activate listener: enumerate the existing
partition names and delete every one not in the whitelist (the map over
`keyList` issues the deletions in enumeration order). -/
def activateSW (s : CacheStorage) : CacheStorage :=
  runDeletions s
    ((s.map (fun np => np.1)).filter (fun k => !cacheWhitelist.contains k))

/-- Observable service-worker state for the message handler: the cache
storage plus whether `skipWaiting` was invoked. -/
structure SWState where
  storage : CacheStorage
  skipWaitingCalled : Bool
deriving DecidableEq, Repr

/-- src/sw.js lines 285-300, the message listener: dispatch on
`event.data.action`; `skipWaiting` flags activation, `clearCache` deletes
every partition, `cacheCDN` re-runs the CDN `addAll` (no modification if
it fails), and anything else falls off the if/else chain unchanged. -/
def handleMessage (st : SWState) (action : Option String)
    (net : String → FetchResult) : SWState :=
  if action == some "skipWaiting" then
    { st with skipWaitingCalled := true }
  else if action == some "clearCache" then
    { st with storage := [] }
  else if action == some "cacheCDN" then
    match cacheAddAll (storageGet st.storage CDN_CACHE) cdnUrlsToCache net with
    | .ok p => { st with storage := storageSet st.storage CDN_CACHE p }
    | .error _ => st
  else
    st

/-! ### Write sequences and FIFO eviction lemmas (claim C1 support) -/

/-- One client write followed by the eviction enforcer, exactly as the two
bounded strategies perform it (`cache.put` then `limitCacheSize`). -/
def writeAndEnforce (p : Partition) (w : Key × Response) (m : Nat) : Partition :=
  limitCacheSize (cachePut p w.1 w.2) m

/-- A finite sequence of writes against one bounded partition, the
enforcer running after each write. -/
def runWrites (p : Partition) (ws : List (Key × Response)) (m : Nat) : Partition :=
  ws.foldl (fun acc w => writeAndEnforce acc w m) p

/-- Specification-side: the entries a write sequence leaves before any
bounding — one entry per identity, holding the last written response, in
order of most recent write. -/
def dedupLast : List (Key × Response) → List (Key × Response)
  | [] => []
  | w :: rest =>
    if w.1 ∈ rest.map (fun e => e.1) then dedupLast rest
    else w :: dedupLast rest

/-! ### Concrete sample data, used to instantiate theorems with hypotheses -/

def sampleOk : Response := { status := 200, headers := [], body := "ok" }
def sampleOk2 : Response := { status := 200, headers := [], body := "second" }
def sampleNotFound : Response := { status := 404, headers := [], body := "not found" }
def sampleOffline : Response :=
  { status := 200, headers := [("Content-Type", "text/html")], body := "offline page" }
def sampleImage : Response :=
  { status := 200, headers := [("Content-Type", "image/png")], body := "png" }

def sampleWrites : List (Key × Response) :=
  [("/a.html", sampleOk), ("/b.html", sampleOk2), ("/a.html", sampleNotFound)]

def sampleShell : CacheStorage := [(CACHE_NAME, [("/offline.html", sampleOffline)])]
def sampleShellCached : CacheStorage := [(CACHE_NAME, [("/cached.html", sampleOk)])]
def sampleImageStore : CacheStorage := [(IMAGE_CACHE, [("/pic.png", sampleImage)])]
def sampleOldStore : CacheStorage :=
  [(CACHE_NAME, [("/x", sampleOk)]), ("old-cache", [("/y", sampleOk2)])]

def sampleCdnRequest : Request :=
  { method := "GET",
    url := "https://cdn.jsdelivr.net.example.com/lib.js",
    hostname := "cdn.jsdelivr.net.example.com",
    origin := "https://cdn.jsdelivr.net.example.com",
    destination := "script" }

theorem limitCacheSize_of_le (p : Partition) (m : Nat) (h : p.length ≤ m) :
    limitCacheSize p m = p := by
  cases p with
  | nil => simp [limitCacheSize]
  | cons e rest =>
    simp only [limitCacheSize, List.length_cons]
    rw [if_neg (by simp only [List.length_cons] at h; omega)]

theorem keysNodup_drop (p : Partition) (n : Nat) (h : (cacheKeys p).Nodup) :
    (cacheKeys (p.drop n)).Nodup := by
  have hsub : (cacheKeys (p.drop n)).Sublist (cacheKeys p) := by
    simpa [cacheKeys] using (List.drop_sublist n p).map (fun e => e.1)
  exact List.Nodup.sublist hsub h

theorem keysNodup_cons (e : Key × Response) (rest : Partition)
    (h : (cacheKeys (e :: rest)).Nodup) :
    e.1 ∉ List.map (fun x => x.1) rest ∧ (cacheKeys rest).Nodup := by
  have h' : (e.1 :: List.map (fun x => x.1) rest).Nodup := by
    simpa only [cacheKeys, List.map_cons] using h
  refine ⟨(List.nodup_cons.mp h').1, ?_⟩
  show (List.map (fun x => x.1) rest).Nodup
  exact (List.nodup_cons.mp h').2

theorem limitCacheSize_eq_drop (p : Partition) (m : Nat)
    (h : (cacheKeys p).Nodup) :
    limitCacheSize p m = p.drop (p.length - m) := by
  induction p with
  | nil => simp [limitCacheSize]
  | cons e rest ih =>
    have hmem : e.1 ∉ List.map (fun x => x.1) rest := (keysNodup_cons e rest h).1
    have hrest : (cacheKeys rest).Nodup := (keysNodup_cons e rest h).2
    have hdel : cacheDelete (e :: rest) e.1 = rest := by
      simp only [cacheDelete, List.filter_cons, bne_self_eq_false, Bool.false_eq_true,
        if_false]
      apply List.filter_eq_self.mpr
      intro x hx
      exact bne_iff_ne.mpr (fun hxk => hmem (hxk ▸ List.mem_map_of_mem _ hx))
    by_cases hlt : m < (e :: rest).length
    · rw [show limitCacheSize (e :: rest) m
          = limitCacheSize (cacheDelete (e :: rest) e.1) m by
            simp only [limitCacheSize]; rw [if_pos hlt]]
      rw [hdel, ih hrest]
      have harith : (e :: rest).length - m = (rest.length - m) + 1 := by
        simp only [List.length_cons] at hlt ⊢; omega
      rw [harith, List.drop_succ_cons]
    · rw [limitCacheSize_of_le _ _ (by omega)]
      have : (e :: rest).length - m = 0 := by omega
      rw [this, List.drop_zero]

theorem filter_drop_eq (D : Partition) (f : (Key × Response) → Bool) (j : Nat) :
    (D.drop j).filter f = (D.filter f).drop ((D.take j).filter f).length := by
  have h1 : D.filter f = (D.take j).filter f ++ (D.drop j).filter f := by
    rw [← List.filter_append, List.take_append_drop]
  rw [h1, List.drop_left]

theorem length_le_filter_bne_succ (q : Partition) (k : Key)
    (h : (cacheKeys q).Nodup) :
    q.length ≤ (q.filter (fun e => e.1 != k)).length + 1 := by
  induction q with
  | nil => simp
  | cons e rest ih =>
    have hmem : e.1 ∉ List.map (fun x => x.1) rest := (keysNodup_cons e rest h).1
    have hrest : (cacheKeys rest).Nodup := (keysNodup_cons e rest h).2
    by_cases hek : e.1 = k
    · have hall : rest.filter (fun x => x.1 != k) = rest := by
        apply List.filter_eq_self.mpr
        intro x hx
        exact bne_iff_ne.mpr (fun hxk => hmem ((hxk.trans hek.symm) ▸ List.mem_map_of_mem _ hx))
      have hcond : (e.1 != k) = false := by simp [hek]
      simp [List.filter_cons, hcond, hall]
    · have hcond : (e.1 != k) = true := bne_iff_ne.mpr hek
      have := ih hrest
      simp only [List.filter_cons, hcond, if_true, List.length_cons]
      omega

theorem dedupLast_sublist (ws : List (Key × Response)) :
    (dedupLast ws).Sublist ws := by
  induction ws with
  | nil => simp [dedupLast]
  | cons w rest ih =>
    simp only [dedupLast]
    by_cases hw : w.1 ∈ rest.map (fun e => e.1)
    · rw [if_pos hw]; exact ih.cons _
    · rw [if_neg hw]; exact ih.cons₂ _

theorem keysNodup_dedupLast (ws : List (Key × Response)) :
    (cacheKeys (dedupLast ws)).Nodup := by
  induction ws with
  | nil => simp [dedupLast, cacheKeys]
  | cons w rest ih =>
    simp only [dedupLast]
    by_cases hw : w.1 ∈ rest.map (fun e => e.1)
    · rw [if_pos hw]; exact ih
    · rw [if_neg hw]
      simp only [cacheKeys, List.map_cons]
      refine List.nodup_cons.mpr ⟨?_, by simpa [cacheKeys] using ih⟩
      intro hmem
      exact hw (((dedupLast_sublist rest).map (fun e => e.1)).mem hmem)

theorem dedupLast_append_singleton (ws : List (Key × Response)) (w : Key × Response) :
    dedupLast (ws ++ [w]) =
      (dedupLast ws).filter (fun e => e.1 != w.1) ++ [w] := by
  induction ws with
  | nil => simp [dedupLast]
  | cons x rest ih =>
    have hstep : dedupLast ((x :: rest) ++ [w])
        = if x.1 ∈ (rest ++ [w]).map (fun e => e.1) then dedupLast (rest ++ [w])
          else x :: dedupLast (rest ++ [w]) := rfl
    have hstep2 : dedupLast (x :: rest)
        = if x.1 ∈ rest.map (fun e => e.1) then dedupLast rest
          else x :: dedupLast rest := rfl
    have hmemiff : (x.1 ∈ (rest ++ [w]).map (fun e => e.1)) ↔
        (x.1 ∈ rest.map (fun e => e.1) ∨ x.1 = w.1) := by
      simp
    rw [hstep, hstep2]
    by_cases hx : x.1 ∈ rest.map (fun e => e.1)
    · rw [if_pos (hmemiff.mpr (Or.inl hx)), if_pos hx, ih]
    · by_cases hxw : x.1 = w.1
      · rw [if_pos (hmemiff.mpr (Or.inr hxw)), if_neg hx, ih]
        have hcond : (x.1 != w.1) = false := by simp [hxw]
        simp [List.filter_cons, hcond]
      · have hnotmem : x.1 ∉ (rest ++ [w]).map (fun e => e.1) := by
          intro hmem
          rcases hmemiff.mp hmem with hcase | hcase
          · exact hx hcase
          · exact hxw hcase
        rw [if_neg hnotmem, if_neg hx, ih]
        have hcond : (x.1 != w.1) = true := bne_iff_ne.mpr hxw
        simp [List.filter_cons, hcond]

/-- After any finite sequence of writes (overwrites included) against a
bounded partition starting empty, the surviving entries are exactly the
most-recently-written `m` identities, newest insertion last. -/
theorem runWrites_eq_drop (m : Nat) (ws : List (Key × Response)) :
    runWrites [] ws m = (dedupLast ws).drop ((dedupLast ws).length - m) := by
  induction ws using List.reverseRecOn with
  | nil => simp [runWrites, dedupLast]
  | append_singleton ws w ih =>
    obtain ⟨k, r⟩ := w
    have hsplit : runWrites [] (ws ++ [(k, r)]) m
        = writeAndEnforce (runWrites [] ws m) (k, r) m := by
      simp [runWrites, List.foldl_append]
    set E := dedupLast ws with hE
    set j := E.length - m with hj
    set F := E.filter (fun e => e.1 != k) with hF
    set t := ((E.take j).filter (fun e => e.1 != k)).length with ht
    have hFsplit : F = (E.take j).filter (fun e => e.1 != k)
        ++ (E.drop j).filter (fun e => e.1 != k) := by
      rw [hF, ← List.filter_append, List.take_append_drop]
    have hput : cachePut (E.drop j) k r = F.drop t ++ [(k, r)] := by
      show (E.drop j).filter (fun e => e.1 != k) ++ [(k, r)] = F.drop t ++ [(k, r)]
      rw [filter_drop_eq]
    have htF : t ≤ F.length := by
      rw [hFsplit, List.length_append]
      omega
    have happ : F.drop t ++ [(k, r)] = (F ++ [(k, r)]).drop t :=
      (List.drop_append_of_le_length htF).symm
    have hded : dedupLast (ws ++ [(k, r)]) = F ++ [(k, r)] :=
      dedupLast_append_singleton ws (k, r)
    have hndE : (cacheKeys (F ++ [(k, r)])).Nodup := by
      rw [← hded]; exact keysNodup_dedupLast _
    have hndq : (cacheKeys (E.drop j)).Nodup :=
      keysNodup_drop _ _ (keysNodup_dedupLast ws)
    have hnddrop : (cacheKeys ((F ++ [(k, r)]).drop t)).Nodup :=
      keysNodup_drop _ _ hndE
    rw [hsplit, ih, hded]
    show limitCacheSize (cachePut (E.drop j) k r) m
        = (F ++ [(k, r)]).drop ((F ++ [(k, r)]).length - m)
    rw [hput, happ, limitCacheSize_eq_drop _ _ hnddrop, List.drop_drop]
    congr 1
    have h5 : (E.drop j).length = E.length - j := List.length_drop j E
    have h3 : (E.drop j).length ≤ ((E.drop j).filter (fun e => e.1 != k)).length + 1 :=
      length_le_filter_bne_succ _ _ hndq
    have h4 : ((E.drop j).filter (fun e => e.1 != k)).length ≤ (E.drop j).length :=
      List.length_filter_le _ _
    have h2 : F.length = t + ((E.drop j).filter (fun e => e.1 != k)).length := by
      rw [hFsplit, List.length_append]
    have h7 : t ≤ j := by
      calc t ≤ (E.take j).length := List.length_filter_le _ _
        _ ≤ j := by rw [List.length_take]; omega
    have hXlen : (F ++ [(k, r)]).length = F.length + 1 := by simp
    have hXd : ((F ++ [(k, r)]).drop t).length = (F.length + 1) - t := by
      rw [List.length_drop, hXlen]
    omega

/-! ### Storage and write-through support lemmas -/

theorem keysNodup_cachePut (p : Partition) (k : Key) (r : Response)
    (h : (cacheKeys p).Nodup) : (cacheKeys (cachePut p k r)).Nodup := by
  show (cacheKeys (p.filter (fun e => e.1 != k) ++ [(k, r)])).Nodup
  simp only [cacheKeys, List.map_append, List.map_cons, List.map_nil]
  refine List.nodup_append.mpr ⟨?_, List.nodup_singleton _, ?_⟩
  · exact List.Nodup.sublist ((List.filter_sublist p).map (fun e => e.1)) h
  · intro a ha hb
    have hmem : a ∈ List.map (fun e => e.1) (p.filter (fun e => e.1 != k)) := ha
    obtain ⟨e, he, hek⟩ := List.mem_map.mp hmem
    have hne : (e.1 != k) = true :=
      @List.of_mem_filter (Key × Response) (fun x => x.1 != k) e p he
    have : a = k := by simpa using hb
    exact absurd (hek.trans this) (bne_iff_ne.mp hne)

theorem cacheMatch_append_last (q : Partition) (k : Key) (r : Response)
    (h : ∀ e ∈ q, (e.1 == k) = false) :
    cacheMatch (q ++ [(k, r)]) k = some r := by
  induction q with
  | nil => simp [cacheMatch]
  | cons e rest ih =>
    have he : (e.1 == k) = false := h e (by simp)
    show ((e :: (rest ++ [(k, r)])).find? (fun x => x.1 == k)).map (fun x => x.2) = some r
    rw [List.find?_cons_of_neg _ (by simp [he])]
    exact ih (fun x hx => h x (by simp [hx]))

/-- After a write and a run of the enforcer with a positive bound, the
just-written entry is present. -/
theorem cacheMatch_writeAndEnforce (p : Partition) (k : Key) (r : Response) (m : Nat)
    (hnd : (cacheKeys p).Nodup) (hm : 1 ≤ m) :
    cacheMatch (limitCacheSize (cachePut p k r) m) k = some r := by
  have hndput : (cacheKeys (cachePut p k r)).Nodup := keysNodup_cachePut p k r hnd
  rw [limitCacheSize_eq_drop _ _ hndput]
  show cacheMatch ((p.filter (fun e => e.1 != k) ++ [(k, r)]).drop
    ((p.filter (fun e => e.1 != k) ++ [(k, r)]).length - m)) k = some r
  have hlen : (p.filter (fun e => e.1 != k) ++ [(k, r)]).length
      = (p.filter (fun e => e.1 != k)).length + 1 := by simp
  have hj : (p.filter (fun e => e.1 != k) ++ [(k, r)]).length - m
      ≤ (p.filter (fun e => e.1 != k)).length := by omega
  rw [List.drop_append_of_le_length hj]
  apply cacheMatch_append_last
  intro e he
  have hmem : e ∈ p.filter (fun x => x.1 != k) := (List.drop_sublist _ _).subset he
  have hne : (e.1 != k) = true :=
    @List.of_mem_filter (Key × Response) (fun x => x.1 != k) e p hmem
  simpa [bne] using hne

theorem find?_map_update (s : CacheStorage) (name : String) (p : Partition)
    (h : s.any (fun np => np.1 == name) = true) :
    (s.map (fun np => if np.1 == name then (name, p) else np)).find?
      (fun np => np.1 == name) = some (name, p) := by
  induction s with
  | nil => simp at h
  | cons np rest ih =>
    by_cases hnp : (np.1 == name) = true
    · show List.find? (fun x => x.1 == name)
        ((if np.1 == name then (name, p) else np) :: _) = some (name, p)
      rw [if_pos hnp]
      exact List.find?_cons_of_pos _ (by simp)
    · have h' : rest.any (fun x => x.1 == name) = true := by
        rw [List.any_cons] at h
        simpa [hnp] using h
      show List.find? (fun x => x.1 == name)
        ((if np.1 == name then (name, p) else np) :: _) = some (name, p)
      rw [if_neg hnp, List.find?_cons_of_neg _ (by simp [hnp])]
      exact ih h'

theorem find?_append_miss (s : CacheStorage) (name : String) (p : Partition)
    (h : s.any (fun np => np.1 == name) = false) :
    (s ++ [(name, p)]).find? (fun np => np.1 == name) = some (name, p) := by
  induction s with
  | nil => exact List.find?_cons_of_pos _ (by simp)
  | cons np rest ih =>
    rw [List.any_cons] at h
    have h1 : (np.1 == name) = false := by
      cases hb : (np.1 == name) <;> simp [hb] at h ⊢
    have h2 : rest.any (fun x => x.1 == name) = false := by
      cases hb : rest.any (fun x => x.1 == name) <;> simp [hb, h1] at h ⊢
    show List.find? (fun x => x.1 == name) (np :: (rest ++ [(name, p)])) = some (name, p)
    rw [List.find?_cons_of_neg _ (by simp [h1])]
    exact ih h2

/-- Reading back the partition just stored under a name. -/
theorem storageGet_storageSet_same (s : CacheStorage) (name : String) (p : Partition) :
    storageGet (storageSet s name p) name = p := by
  by_cases h : s.any (fun np => np.1 == name) = true
  · simp only [storageSet, storageGet, if_pos h]
    rw [find?_map_update s name p h]
    rfl
  · have h' : s.any (fun np => np.1 == name) = false := by
      cases hb : s.any (fun np => np.1 == name)
      · rfl
      · exact absurd hb h
    simp only [storageSet, storageGet, if_neg h]
    rw [find?_append_miss s name p h']
    rfl

/-- Write-through followed by the enforcer, on a named partition of the
storage: the entry just written is readable back. -/
theorem cacheMatch_after_write (s : CacheStorage) (name : String) (req : Key)
    (r : Response) (m : Nat)
    (hnd : (cacheKeys (storageGet s name)).Nodup) (hm : 1 ≤ m) :
    cacheMatch
      (storageGet (storageLimit (storagePut s name req r) name m) name) req
      = some r := by
  simp only [storageLimit, storagePut]
  rw [storageGet_storageSet_same, storageGet_storageSet_same]
  exact cacheMatch_writeAndEnforce _ _ _ _ hnd hm

/-! ### Activation lemmas -/

/-- A batch of deletions by name is a filter; in particular the result is
independent of the order of the deletions. -/
theorem runDeletions_eq_filter (names : List String) (s : CacheStorage) :
    runDeletions s names = s.filter (fun np => !(names.contains np.1)) := by
  induction names generalizing s with
  | nil => simp [runDeletions]
  | cons n rest ih =>
    show runDeletions (deleteCacheByName s n) rest = _
    rw [ih (deleteCacheByName s n)]
    show (s.filter (fun np => np.1 != n)).filter (fun np => !(rest.contains np.1)) = _
    rw [List.filter_filter]
    apply List.filter_congr
    intro np _
    rw [List.contains_cons]
    cases hb : (np.1 == n) <;> simp [bne, hb]

theorem mem_runDeletions (s : CacheStorage) (names : List String)
    (n : String) (p : Partition) :
    (n, p) ∈ runDeletions s names ↔ ((n, p) ∈ s ∧ n ∉ names) := by
  rw [runDeletions_eq_filter, List.mem_filter]
  constructor
  · rintro ⟨hmem, hc⟩
    refine ⟨hmem, fun hn => ?_⟩
    rw [Bool.not_eq_true', ← Bool.not_eq_true] at hc
    exact hc (List.elem_iff.mpr hn)
  · rintro ⟨hmem, hn⟩
    refine ⟨hmem, ?_⟩
    cases hb : names.contains n
    · rfl
    · exact absurd (List.elem_iff.mp hb) hn

/-- The activate listener keeps exactly the whitelisted partitions. -/
theorem activateSW_eq_filter (s : CacheStorage) :
    activateSW s = s.filter (fun np => cacheWhitelist.contains np.1) := by
  rw [activateSW, runDeletions_eq_filter]
  apply List.filter_congr
  intro np hnp
  have hin : np.1 ∈ s.map (fun e => e.1) := List.mem_map_of_mem _ hnp
  cases hw : cacheWhitelist.contains np.1
  · have hmem : np.1 ∈ (s.map (fun e => e.1)).filter
        (fun k => !cacheWhitelist.contains k) :=
      List.mem_filter.mpr ⟨hin, by rw [hw]; rfl⟩
    have hc : ((s.map (fun e => e.1)).filter
        (fun k => !cacheWhitelist.contains k)).contains np.1 = true :=
      List.elem_iff.mpr hmem
    rw [hc]
    rfl
  · have hnot : np.1 ∉ (s.map (fun e => e.1)).filter
        (fun k => !cacheWhitelist.contains k) := by
      intro hmem
      have hcond := (List.mem_filter.mp hmem).2
      rw [hw] at hcond
      exact absurd hcond (by decide)
    cases hb : ((s.map (fun e => e.1)).filter
        (fun k => !cacheWhitelist.contains k)).contains np.1
    · rfl
    · exact absurd (List.elem_iff.mp hb) hnot

/-! ### Claim theorems -/

/-- C1: For every bounded partition (dynamic-pages, max 50; images, max
100) and every finite sequence of writes with the eviction enforcer run
after each write, the entry count never exceeds the bound, the surviving
entries are exactly the most-recently-inserted `m` ones in insertion
order (strict FIFO eviction by oldest-inserted entry), and the enforcer
removes nothing when the count is already within the bound. -/
theorem claim1_fifo_eviction_bound (m : Nat) (ws : List (Key × Response))
    (p : Partition) (hm : m = MAX_DYNAMIC_ITEMS ∨ m = MAX_IMAGE_ITEMS)
    (hp : p.length ≤ m) :
    runWrites [] ws m = (dedupLast ws).drop ((dedupLast ws).length - m) ∧
    (runWrites [] ws m).length ≤ m ∧
    limitCacheSize p m = p := by
  refine ⟨runWrites_eq_drop m ws, ?_, limitCacheSize_of_le p m hp⟩
  rw [runWrites_eq_drop m ws, List.length_drop]
  omega

theorem claim1_fifo_eviction_bound_witness :
    runWrites [] sampleWrites MAX_DYNAMIC_ITEMS
        = (dedupLast sampleWrites).drop
            ((dedupLast sampleWrites).length - MAX_DYNAMIC_ITEMS) ∧
    (runWrites [] sampleWrites MAX_DYNAMIC_ITEMS).length ≤ MAX_DYNAMIC_ITEMS ∧
    limitCacheSize [("/c.html", sampleOk)] MAX_DYNAMIC_ITEMS
      = [("/c.html", sampleOk)] :=
  claim1_fifo_eviction_bound MAX_DYNAMIC_ITEMS sampleWrites
    [("/c.html", sampleOk)] (Or.inl rfl) (by decide)

/-- C2 as stated is false on the code: the page strategy performs
`cache.put` with no status check (src/sw.js line 189), so a successful
404 network response IS written to the dynamic-pages partition, and the
image strategy likewise writes it to the images partition. -/
theorem claim2_counterexample_non200_is_cached :
    sampleNotFound.status = 404 ∧
    (handlePageRequest [] "/missing" (.ok sampleNotFound)).1 = some sampleNotFound ∧
    cacheMatch
      (storageGet (handlePageRequest [] "/missing" (.ok sampleNotFound)).2 DYNAMIC_CACHE)
      "/missing" = some sampleNotFound ∧
    cacheMatch
      (storageGet (handleImageRequest [] "/pic.png" (.ok sampleNotFound)).2.1 IMAGE_CACHE)
      "/pic.png" = some sampleNotFound := by
  refine ⟨rfl, rfl, ?_, ?_⟩
  · exact cacheMatch_after_write [] DYNAMIC_CACHE "/missing" sampleNotFound
      MAX_DYNAMIC_ITEMS (by decide) (by decide)
  · exact cacheMatch_after_write [] IMAGE_CACHE "/pic.png" sampleNotFound
      MAX_IMAGE_ITEMS (by decide) (by decide)

/-- C2 (amended): when the network fetch succeeds with a non-200 status,
the page and image strategies return that response to the caller AND
write an entry for the request identity into their partitions (the image
strategy on its cache-miss path); neither strategy checks the status
before caching — only the CDN strategy does. -/
theorem claim2_amended_non200_cached (s1 s2 : CacheStorage) (req1 req2 : Key)
    (r1 r2 : Response)
    (hr1 : r1.status ≠ 200) (hr2 : r2.status ≠ 200)
    (hnd1 : (cacheKeys (storageGet s1 DYNAMIC_CACHE)).Nodup)
    (hnd2 : (cacheKeys (storageGet s2 IMAGE_CACHE)).Nodup)
    (hmiss : cachesMatch s2 req2 = none) :
    ((handlePageRequest s1 req1 (.ok r1)).1 = some r1 ∧
      cacheMatch (storageGet (handlePageRequest s1 req1 (.ok r1)).2 DYNAMIC_CACHE) req1
        = some r1) ∧
    ((handleImageRequest s2 req2 (.ok r2)).1 = r2 ∧
      cacheMatch (storageGet (handleImageRequest s2 req2 (.ok r2)).2.1 IMAGE_CACHE) req2
        = some r2) := by
  refine ⟨⟨rfl, ?_⟩, ⟨?_, ?_⟩⟩
  · exact cacheMatch_after_write s1 DYNAMIC_CACHE req1 r1 MAX_DYNAMIC_ITEMS hnd1 (by decide)
  · simp [handleImageRequest, hmiss]
  · simp only [handleImageRequest, hmiss]
    exact cacheMatch_after_write s2 IMAGE_CACHE req2 r2 MAX_IMAGE_ITEMS hnd2 (by decide)

theorem claim2_amended_non200_cached_witness :
    ((handlePageRequest [] "/gone" (.ok sampleNotFound)).1 = some sampleNotFound ∧
      cacheMatch (storageGet (handlePageRequest [] "/gone" (.ok sampleNotFound)).2
        DYNAMIC_CACHE) "/gone" = some sampleNotFound) ∧
    ((handleImageRequest [] "/gone.png" (.ok sampleNotFound)).1 = sampleNotFound ∧
      cacheMatch (storageGet (handleImageRequest [] "/gone.png" (.ok sampleNotFound)).2.1
        IMAGE_CACHE) "/gone.png" = some sampleNotFound) :=
  claim2_amended_non200_cached [] [] "/gone" "/gone.png" sampleNotFound sampleNotFound
    (by decide) (by decide) (by decide) (by decide) (by decide)

/-- C3: page strategy contract: on network success the live response is
returned and the dynamic-pages partition afterwards contains an entry
for the request identity; on network failure with no cached entry in any
partition, the pre-warmed offline placeholder is returned; on network
failure with a cached entry, that cached entry is returned. -/
theorem claim3_page_strategy (s1 s2 s3 : CacheStorage) (req1 req2 req3 : Key)
    (r c off : Response)
    (hnd : (cacheKeys (storageGet s1 DYNAMIC_CACHE)).Nodup)
    (hmiss : cachesMatch s2 req2 = none)
    (hoff : cachesMatch s2 "/offline.html" = some off)
    (hhit : cachesMatch s3 req3 = some c) :
    ((handlePageRequest s1 req1 (.ok r)).1 = some r ∧
      cacheMatch (storageGet (handlePageRequest s1 req1 (.ok r)).2 DYNAMIC_CACHE) req1
        = some r) ∧
    handlePageRequest s2 req2 (.error ()) = (some off, s2) ∧
    handlePageRequest s3 req3 (.error ()) = (some c, s3) := by
  refine ⟨⟨rfl, ?_⟩, ?_, ?_⟩
  · exact cacheMatch_after_write s1 DYNAMIC_CACHE req1 r MAX_DYNAMIC_ITEMS hnd (by decide)
  · simp [handlePageRequest, hmiss, hoff]
  · simp [handlePageRequest, hhit]

theorem claim3_page_strategy_witness :
    ((handlePageRequest [] "/new.html" (.ok sampleOk2)).1 = some sampleOk2 ∧
      cacheMatch (storageGet (handlePageRequest [] "/new.html" (.ok sampleOk2)).2
        DYNAMIC_CACHE) "/new.html" = some sampleOk2) ∧
    handlePageRequest sampleShell "/nocache.html" (.error ())
      = (some sampleOffline, sampleShell) ∧
    handlePageRequest sampleShellCached "/cached.html" (.error ())
      = (some sampleOk, sampleShellCached) :=
  claim3_page_strategy [] sampleShell sampleShellCached "/new.html" "/nocache.html"
    "/cached.html" sampleOk2 sampleOk sampleOffline
    (by decide) (by decide) (by decide) (by decide)

/-- C4: API strategy: a fetch resolving strictly within the 5000 ms
timeout is returned unchanged with the storage untouched; a fetch that
settles at or after the timeout, rejects, or never settles yields the
synthetic response with status 503, Content-Type application/json and
the fixed offline JSON body — returned normally, never thrown — with the
storage untouched in every case. -/
theorem claim4_api_timeout_503 (s1 s2 s3 s4 : CacheStorage)
    (t1 t2 t3 : Nat) (r1 : Response) (f : FetchResult)
    (hok : t1 < TIMEOUT_MS) (hlate : TIMEOUT_MS ≤ t2) :
    handleApiRequest s1 (some (t1, .ok r1)) = (r1, s1) ∧
    handleApiRequest s2 (some (t2, f)) = (offlineJsonResponse, s2) ∧
    handleApiRequest s3 (some (t3, .error ())) = (offlineJsonResponse, s3) ∧
    handleApiRequest s4 none = (offlineJsonResponse, s4) ∧
    offlineJsonResponse.status = 503 ∧
    offlineJsonResponse.headers = [("Content-Type", "application/json")] ∧
    offlineJsonResponse.body = "\x7b\"error\":\"Network error\",\"offline\":true\x7d" := by
  refine ⟨?_, ?_, ?_, rfl, rfl, rfl, rfl⟩
  · simp [handleApiRequest, raceWithTimeout, hok]
  · have hno : ¬ (t2 < TIMEOUT_MS) := by omega
    cases f with
    | ok r => simp [handleApiRequest, raceWithTimeout, hno]
    | error e => simp [handleApiRequest, raceWithTimeout, hno]
  · by_cases h : t3 < TIMEOUT_MS <;> simp [handleApiRequest, raceWithTimeout, h]

theorem claim4_api_timeout_503_witness :
    handleApiRequest [] (some (100, .ok sampleOk)) = (sampleOk, []) ∧
    handleApiRequest sampleShell (some (5000, .ok sampleOk2))
      = (offlineJsonResponse, sampleShell) ∧
    handleApiRequest sampleShellCached (some (40, .error ()))
      = (offlineJsonResponse, sampleShellCached) ∧
    handleApiRequest sampleImageStore none = (offlineJsonResponse, sampleImageStore) ∧
    offlineJsonResponse.status = 503 ∧
    offlineJsonResponse.headers = [("Content-Type", "application/json")] ∧
    offlineJsonResponse.body = "\x7b\"error\":\"Network error\",\"offline\":true\x7d" :=
  claim4_api_timeout_503 [] sampleShell sampleShellCached sampleImageStore
    100 5000 40 sampleOk (.ok sampleOk2) (by decide) (by decide)

/-- C5: activation deletes every partition whose name is outside the
whitelist and preserves every whitelisted partition with contents
untouched, regardless of deletion order: any deletion batch whose names
are a permutation of the existing non-whitelisted names yields the same
result as the listener, and an entry survives iff it was present and its
name is whitelisted. -/
theorem claim5_activation_whitelist (s : CacheStorage) (order : List String)
    (horder : order.Perm ((s.map (fun np => np.1)).filter
      (fun k => !(cacheWhitelist.contains k))))
    (n : String) (p : Partition) :
    ((n, p) ∈ runDeletions s order ↔ ((n, p) ∈ s ∧ n ∈ cacheWhitelist)) ∧
    runDeletions s order = activateSW s := by
  have hmemiff : ∀ k, k ∈ order ↔ (k ∈ s.map (fun np => np.1) ∧ k ∉ cacheWhitelist) := by
    intro k
    rw [horder.mem_iff, List.mem_filter]
    constructor
    · rintro ⟨h1, h2⟩
      refine ⟨h1, fun hwl => ?_⟩
      have hc : cacheWhitelist.contains k = true := List.elem_iff.mpr hwl
      rw [hc] at h2
      exact absurd h2 (by decide)
    · rintro ⟨h1, h2⟩
      refine ⟨h1, ?_⟩
      cases hb : cacheWhitelist.contains k
      · rfl
      · exact absurd (List.elem_iff.mp hb) h2
  constructor
  · rw [mem_runDeletions]
    constructor
    · rintro ⟨hmem, hnot⟩
      refine ⟨hmem, ?_⟩
      by_contra hwl
      exact hnot ((hmemiff n).mpr ⟨List.mem_map_of_mem _ hmem, hwl⟩)
    · rintro ⟨hmem, hwl⟩
      exact ⟨hmem, fun hn => ((hmemiff n).mp hn).2 hwl⟩
  · rw [runDeletions_eq_filter, activateSW_eq_filter]
    apply List.filter_congr
    intro np hnp
    by_cases hwl : np.1 ∈ cacheWhitelist
    · have hno : np.1 ∉ order := fun hn => ((hmemiff np.1).mp hn).2 hwl
      have h1 : order.contains np.1 = false := by
        cases hb : order.contains np.1
        · rfl
        · exact absurd (List.elem_iff.mp hb) hno
      have h2 : cacheWhitelist.contains np.1 = true := List.elem_iff.mpr hwl
      rw [h1, h2]
      rfl
    · have hyes : np.1 ∈ order :=
        (hmemiff np.1).mpr ⟨List.mem_map_of_mem _ hnp, hwl⟩
      have h1 : order.contains np.1 = true := List.elem_iff.mpr hyes
      have h2 : cacheWhitelist.contains np.1 = false := by
        cases hb : cacheWhitelist.contains np.1
        · rfl
        · exact absurd (List.elem_iff.mp hb) hwl
      rw [h1, h2]
      rfl

theorem claim5_activation_whitelist_witness :
    ((CACHE_NAME, [("/x", sampleOk)]) ∈ runDeletions sampleOldStore ["old-cache"] ↔
      ((CACHE_NAME, [("/x", sampleOk)]) ∈ sampleOldStore ∧ CACHE_NAME ∈ cacheWhitelist)) ∧
    runDeletions sampleOldStore ["old-cache"] = activateSW sampleOldStore :=
  claim5_activation_whitelist sampleOldStore ["old-cache"] (by decide)
    CACHE_NAME [("/x", sampleOk)]

/-- C6: installation fails exactly when pre-population of the static
shell fails; a failure of the best-effort CDN pre-population is swallowed
and never fails installation. -/
theorem claim6_install_failure_mode (s : CacheStorage) (net : String → FetchResult) :
    (installSW s net).isOk
      = (cacheAddAll (storageGet s CACHE_NAME) urlsToCache net).isOk := by
  cases hst : cacheAddAll (storageGet s CACHE_NAME) urlsToCache net with
  | error e => simp [installSW, hst, Except.isOk, Except.toBool]
  | ok staticPart =>
    cases hcdn : cacheAddAll (storageGet (storageSet s CACHE_NAME staticPart) CDN_CACHE)
        cdnUrlsToCache net with
    | error e => simp [installSW, hst, hcdn, Except.isOk, Except.toBool]
    | ok cdnPart => simp [installSW, hst, hcdn, Except.isOk, Except.toBool]

/-- C7: a control message whose action is missing or not one of
skipWaiting / clearCache / cacheCDN leaves the whole observable state
(every partition and the skipWaiting flag) unchanged, and the handler
returns normally. -/
theorem claim7_unknown_message_noop (st : SWState) (action : Option String)
    (net : String → FetchResult)
    (h1 : action ≠ some "skipWaiting") (h2 : action ≠ some "clearCache")
    (h3 : action ≠ some "cacheCDN") :
    handleMessage st action net = st := by
  have b1 : (action == some "skipWaiting") = false := by
    cases hb : action == some "skipWaiting"
    · rfl
    · exact absurd (eq_of_beq hb) h1
  have b2 : (action == some "clearCache") = false := by
    cases hb : action == some "clearCache"
    · rfl
    · exact absurd (eq_of_beq hb) h2
  have b3 : (action == some "cacheCDN") = false := by
    cases hb : action == some "cacheCDN"
    · rfl
    · exact absurd (eq_of_beq hb) h3
  simp [handleMessage, b1, b2, b3]

theorem claim7_unknown_message_noop_witness :
    handleMessage ⟨sampleShell, false⟩ (some "reload") (fun _ => .error ())
      = ⟨sampleShell, false⟩ :=
  claim7_unknown_message_noop ⟨sampleShell, false⟩ (some "reload")
    (fun _ => .error ()) (by decide) (by decide) (by decide)

/-- C8: for an image request whose identity is cached, the image strategy
returns the cached entry with the storage unchanged and performs no
network fetch: the result is independent of the network outcome and the
fetched flag is false. -/
theorem claim8_image_hit_no_fetch (s : CacheStorage) (req : Key) (c : Response)
    (net : FetchResult) (hhit : cachesMatch s req = some c) :
    handleImageRequest s req net = (c, s, false) := by
  simp [handleImageRequest, hhit]

theorem claim8_image_hit_no_fetch_witness :
    handleImageRequest sampleImageStore "/pic.png" (.error ())
      = (sampleImage, sampleImageStore, false) :=
  claim8_image_hit_no_fetch sampleImageStore "/pic.png" sampleImage (.error ())
    (by decide)

/-- C9: activation is idempotent: with no partitions created in between,
activating twice yields exactly the same partition set (names and
contents) as activating once. -/
theorem claim9_activation_idempotent (s : CacheStorage) :
    activateSW (activateSW s) = activateSW s := by
  rw [activateSW_eq_filter (activateSW s), activateSW_eq_filter s, List.filter_filter]
  apply List.filter_congr
  intro np _
  exact Bool.and_self _

/-- C10: the third-party classifier matches by hostname substring, and
this check precedes the cross-origin pass-through check: every GET
request whose hostname contains one of the six CDN domain strings is
classified third-party-resource, whatever its origin. -/
theorem claim10_cdn_substring_override (selfOrigin : String) (req : Request)
    (hget : req.method = "GET")
    (hcdn : ∃ d ∈ cdnDomains, strIncludes req.hostname d = true) :
    classify selfOrigin req = ResourceClass.thirdParty := by
  have h1 : (req.method != "GET") = false := by
    rw [hget]
    exact bne_self_eq_false _
  have h2 : isCDNResource req.hostname = true := by
    obtain ⟨d, hd, hs⟩ := hcdn
    exact List.any_eq_true.mpr ⟨d, hd, hs⟩
  simp [classify, h1, h2]

theorem claim10_cdn_substring_override_witness :
    classify "https://edupath.example.org" sampleCdnRequest
      = ResourceClass.thirdParty :=
  claim10_cdn_substring_override "https://edupath.example.org" sampleCdnRequest
    rfl ⟨"cdn.jsdelivr.net", by decide, by decide⟩

end SW
